import Mathlib

/-!
Verification of the Pickup-Point (PVZ) management service storage core.

The definitions below are a shallow embedding of the Go functions in
`internal/storage/pg_storage` (OpenReception, CloseLastReception,
AddProduct, DeleteLastProduct, CreatePvz, CreateUser, GetPvzInfo,
checkReception, IsUUID, parseUUID) together with the SQL they issue
against the tables `clients`, `pvz`, `receptions`, `products`
(migration files define the schemas; `activity BOOL DEFAULT TRUE`,
`registration_date TIMESTAMP DEFAULT NOW()`).

Embedding conventions:
  * Each table is a Lean list holding the rows in insertion order.
  * `NOW()` is an abstract monotone counter `Store.clock`, bumped after
    every INSERT; timestamps are `Nat`.
  * UUIDs are their canonical string form; the value-level byte
    comparison postgres performs is embedded as string equality of the
    canonical forms.  `gen_random_uuid()` is modelled by passing the
    freshly generated id as an explicit argument; the UNIQUE constraint
    on primary keys is checked by the operation itself.
  * `ORDER BY registration_date DESC LIMIT 1` is embedded as "row with
    the maximal timestamp, ties resolved to the most recently inserted
    row" (`lastMaxBy`); postgres leaves the tie order unspecified, and
    this choice matches heap/insertion order of a freshly written table.
  * Go `error` values are an inductive `Err` with one constructor per
    distinct error produced by the source (constructor comments cite the
    exact Go value); postgres constraint rejections (enum, foreign key,
    unique) get their own constructors.
-/

namespace Pvz

/-- Hex digit test, the `[0-9a-fA-F]` character class of the Go
`IsUUID` regular expression. -/
def isHexChar (c : Char) : Bool :=
  ('0' ≤ c && c ≤ '9') || ('a' ≤ c && c ≤ 'f') || ('A' ≤ c && c ≤ 'F')

/-- Position-wise check of the Go regexp
`^[0-9a-fA-F]{8}-[0-9a-fA-F]{4}-[1-5][0-9a-fA-F]{3}-[89abAB][0-9a-fA-F]{3}-[0-9a-fA-F]{12}$`:
dashes at offsets 8, 13, 18, 23, a version digit `[1-5]` at offset 14,
a variant char `[89abAB]` at offset 19, hex everywhere else. -/
def uuidCharOk (i : Nat) (c : Char) : Bool :=
  if i = 8 || i = 13 || i = 18 || i = 23 then c = '-'
  else if i = 14 then '1' ≤ c && c ≤ '5'
  else if i = 19 then c = '8' || c = '9' || c = 'a' || c = 'b' || c = 'A' || c = 'B'
  else isHexChar c

/-- Embedding of `pg_storage.IsUUID` (the regexp match). -/
def IsUUID (s : String) : Bool :=
  s.toList.length = 36 && (s.toList.enum.all fun p => uuidCharOk p.1 p.2)

/-- Success condition of `pg_storage.parseUUID`: after removing every
dash the string must be exactly 32 hex characters. -/
def parseUUIDOk (s : String) : Bool :=
  let cleaned := s.toList.filter fun c => c ≠ '-'
  cleaned.length = 32 && cleaned.all isHexChar

/-- A row of the `clients` table (id, email, password hash is opaque
and omitted, moderator/employee role booleans). -/
structure Client where
  id : String
  email : String
  moderator : Bool
  employee : Bool
deriving DecidableEq, Repr

/-- A row of the `pvz` table. -/
structure PvzRow where
  id : String
  authorId : Option String
  city : String
  registrationDate : Nat
deriving DecidableEq, Repr

/-- A row of the `receptions` table; `activity` is the isOpen flag
(`activity BOOL DEFAULT TRUE`). -/
structure ReceptionRow where
  id : String
  authorId : Option String
  pvzId : String
  activity : Bool
  registrationDate : Nat
deriving DecidableEq, Repr

/-- A row of the `products` table. -/
structure ProductRow where
  id : String
  authorId : Option String
  receptionId : String
  productType : String
  registrationDate : Nat
deriving DecidableEq, Repr

/-- The database state reached through the storage operations, plus the
abstract clock supplying `NOW()`. -/
structure Store where
  clients : List Client
  pvzs : List PvzRow
  receptions : List ReceptionRow
  products : List ProductRow
  clock : Nat
deriving DecidableEq, Repr

/-- The freshly migrated, empty database. -/
def initStore : Store := ⟨[], [], [], [], 0⟩

/-- The distinct Go `error` values produced by the storage layer. -/
inductive Err where
  /-- `storage.ReceptionFailed{Message: "uuid is not valid"}`. -/
  | uuidNotValidReception
  /-- `errors.New("uuid is not valid")` (AddProduct / DeleteLastProduct). -/
  | uuidNotValidPlain
  /-- `errors.New("query returned no rows")` from `getRow`. -/
  | noRows
  /-- `storage.ReceptionFailed{Message: "opened reception already exists"}`. -/
  | openedReceptionExists
  /-- `storage.LoginFailed{Message: "invalid author"}`. -/
  | invalidAuthor
  /-- `storage.LoginFailed{Message: "user has no permission"}`. -/
  | noPermission
  /-- `errors.New("invalid arguments")` (GetPvzInfo pagination guard). -/
  | invalidArguments
  /-- hex-decoding failure inside `parseUUID`. -/
  | parseUuidFailed
  /-- postgres rejection: value not in an enum type (`cities`, `product_types`). -/
  | dbEnum
  /-- postgres rejection: foreign key violation on insert. -/
  | dbForeignKey
  /-- postgres rejection: unique constraint violation on insert. -/
  | dbUnique
deriving DecidableEq, Repr

/-- Spec §7 `ValidationError` (malformed input: bad identifier format,
invalid enum value, non-positive pagination), read off the error
payloads of the source. -/
def Err.isValidationError : Err → Bool
  | .uuidNotValidReception => true
  | .uuidNotValidPlain => true
  | .invalidArguments => true
  | .parseUuidFailed => true
  | .dbEnum => true
  | _ => false

/-- Spec §7 `ConflictError` (a lifecycle invariant would be violated);
the only business-rule rejection the source produces is
"opened reception already exists". -/
def Err.isConflictError : Err → Bool
  | .openedReceptionExists => true
  | _ => false

/-- Spec §7 `NotFoundError` (a referenced entity does not exist): the
generic empty-result error of `getRow` and a foreign key pointing at a
missing row. -/
def Err.isNotFoundError : Err → Bool
  | .noRows => true
  | .dbForeignKey => true
  | _ => false

/-- `storage.Status`: `in_progress` / `close`. -/
inductive Status where
  | active
  | inactive
deriving DecidableEq, Repr

/-- How the source turns the `activity` boolean into a `storage.Status`. -/
def statusOfBool (b : Bool) : Status := if b then .active else .inactive

/-- `storage.ReceptionInfo` as populated by OpenReception and
CloseLastReception (both leave `Products` nil, so it is omitted). -/
structure ReceptionOut where
  receptionId : String
  dateTime : Nat
  pvzId : String
  status : Status
deriving DecidableEq, Repr

/-- `storage.Product` as returned by AddProduct. -/
structure ProductOut where
  productId : String
  dateTime : Nat
  productType : String
  receptionId : String
deriving DecidableEq, Repr

/-- `SELECT ... ORDER BY registration_date DESC LIMIT 1`: maximal
timestamp, ties resolved to the most recently inserted row. -/
def lastMaxBy {α : Type} (f : α → Nat) : List α → Option α
  | [] => none
  | x :: xs =>
    match lastMaxBy f xs with
    | none => some x
    | some y => if f y < f x then some x else some y

/-- Rows of `SELECT * FROM receptions WHERE pvz_id = p AND activity = true`. -/
def openReceptionsFor (st : Store) (pvz : String) : List ReceptionRow :=
  st.receptions.filter fun r => r.pvzId = pvz && r.activity

/-- The single row of `SELECT * FROM receptions WHERE pvz_id = p AND
activity = true ORDER BY registration_date DESC LIMIT 1`, the query
shared by CloseLastReception, checkReception, AddProduct and
DeleteLastProduct. -/
def lastOpenReception (st : Store) (pvz : String) : Option ReceptionRow :=
  lastMaxBy (fun r => r.registrationDate) (openReceptionsFor st pvz)

/-- Embedding of `pg_storage.checkReception`: `nil` result is `none`. -/
def checkReception (st : Store) (pvzId : String) : Option Err :=
  if ¬ IsUUID pvzId then some .uuidNotValidReception
  else if (openReceptionsFor st pvzId).isEmpty then none
  else some .openedReceptionExists

/-- Embedding of `pg_storage.OpenReception`.  The INSERT into
`receptions` is spelled out: foreign keys on `pvz_id` and `author_id`,
primary key uniqueness, `activity` defaulting to TRUE and
`registration_date` to `NOW()`. -/
def OpenReception (st : Store) (newId author pvz : String) :
    Except Err (ReceptionOut × Store) :=
  if ¬ (IsUUID author && IsUUID pvz) then .error .uuidNotValidReception
  else
    match checkReception st pvz with
    | some e => .error e
    | none =>
      if ¬ st.pvzs.any (fun z => z.id = pvz) then .error .dbForeignKey
      else if ¬ st.clients.any (fun c => c.id = author) then .error .dbForeignKey
      else if st.receptions.any (fun r => r.id = newId) then .error .dbUnique
      else
        let row : ReceptionRow := ⟨newId, some author, pvz, true, st.clock⟩
        .ok (⟨row.id, row.registrationDate, row.pvzId, statusOfBool row.activity⟩,
             { st with receptions := st.receptions ++ [row], clock := st.clock + 1 })

/-- Embedding of `pg_storage.CloseLastReception`: select the most
recent open reception (`getRow` turns an empty result into the
"query returned no rows" error), then
`UPDATE receptions SET activity = false WHERE pvz_id = p` — note the
update touches every reception of the PVZ, exactly as the source does. -/
def CloseLastReception (st : Store) (uuid : String) :
    Except Err (ReceptionOut × Store) :=
  if ¬ IsUUID uuid then .error .uuidNotValidReception
  else
    match lastOpenReception st uuid with
    | none => .error .noRows
    | some r =>
      .ok (⟨r.id, r.registrationDate, r.pvzId, Status.inactive⟩,
           { st with receptions :=
               st.receptions.map fun x =>
                 if x.pvzId = uuid then { x with activity := false } else x })

/-- The `product_types` enum of the schema. -/
def validProductType (t : String) : Bool :=
  t = "электроника" || t = "одежда" || t = "обувь"

/-- Embedding of `pg_storage.AddProduct` (arguments in source order:
pvz uuid, author, product type).  The handler's type check is dead code
(its `if` body is empty), so an invalid type is only rejected by the
`product_types` enum when the INSERT runs — after the open-reception
lookup. -/
def AddProduct (st : Store) (newId uuid author product : String) :
    Except Err (ProductOut × Store) :=
  if ¬ IsUUID uuid then .error .uuidNotValidPlain
  else
    match lastOpenReception st uuid with
    | none => .error .noRows
    | some r =>
      if author ≠ "" && ¬ parseUUIDOk author then .error .parseUuidFailed
      else if ¬ validProductType product then .error .dbEnum
      else if author ≠ "" && ¬ st.clients.any (fun c => c.id = author) then
        .error .dbForeignKey
      else if st.products.any (fun p => p.id = newId) then .error .dbUnique
      else
        let row : ProductRow :=
          ⟨newId, if author = "" then none else some author, r.id, product, st.clock⟩
        .ok (⟨row.id, row.registrationDate, row.productType, row.receptionId⟩,
             { st with products := st.products ++ [row], clock := st.clock + 1 })

/-- Rows of `SELECT * FROM products WHERE reception_id = r`. -/
def productsOfReception (st : Store) (recId : String) : List ProductRow :=
  st.products.filter fun p => p.receptionId = recId

/-- The row of `SELECT * FROM products WHERE reception_id = r ORDER BY
registration_date DESC LIMIT 1`. -/
def lastProductOf (st : Store) (recId : String) : Option ProductRow :=
  lastMaxBy (fun p => p.registrationDate) (productsOfReception st recId)

/-- Embedding of `pg_storage.DeleteLastProduct`: find the open
reception, find its most recent product, `DELETE FROM products WHERE id = ...`. -/
def DeleteLastProduct (st : Store) (uuid : String) : Except Err Store :=
  if ¬ IsUUID uuid then .error .uuidNotValidPlain
  else
    match lastOpenReception st uuid with
    | none => .error .noRows
    | some r =>
      match lastProductOf st r.id with
      | none => .error .noRows
      | some p => .ok { st with products := st.products.filter fun x => x.id ≠ p.id }

/-- The `cities` enum of the schema. -/
def validCity (c : String) : Bool :=
  c = "Москва" || c = "Санкт-Петербург" || c = "Казань"

/-- The optional fields of `storage.PvzInfo` a caller may supply to
CreatePvz. -/
structure PvzParams where
  pvzId : Option String
  registrationDate : Option Nat
  city : String
deriving DecidableEq, Repr

/-- `storage.PvzInfo` as returned by CreatePvz (no receptions). -/
structure PvzOut where
  pvzId : String
  registrationDate : Nat
  city : String
deriving DecidableEq, Repr

/-- The author gate at the top of `CreatePvz` (the `if author != ""`
block of the source): uuid format, client existence, `moderator` flag. -/
def createPvzGate (st : Store) (author : String) : Option Err :=
  if author = "" then none
  else if ¬ IsUUID author then some .uuidNotValidReception
  else
    match st.clients.find? (fun c => c.id = author) with
    | none => some .invalidAuthor
    | some u => if ¬ u.moderator then some .noPermission else none

/-- Embedding of `pg_storage.CreatePvz`.  The author gate is only run
for a non-empty author string: uuid format, client existence, then the
`moderator` flag.  The INSERT uses the supplied id/date when present,
otherwise `gen_random_uuid()` / `NOW()`. -/
def CreatePvz (st : Store) (newId author : String) (params : PvzParams) :
    Except Err (PvzOut × Store) :=
  match createPvzGate st author with
  | some e => .error e
  | none =>
    if params.pvzId.isSome && ! parseUUIDOk (params.pvzId.getD newId) then
      .error .parseUuidFailed
    else if ¬ validCity params.city then .error .dbEnum
    else if st.pvzs.any (fun z => z.id = params.pvzId.getD newId) then .error .dbUnique
    else
      .ok (⟨params.pvzId.getD newId, params.registrationDate.getD st.clock, params.city⟩,
           { st with
               pvzs := st.pvzs ++
                 [⟨params.pvzId.getD newId, if author = "" then none else some author,
                   params.city, params.registrationDate.getD st.clock⟩],
               clock := st.clock + 1 })

/-- The two roles of the service. -/
inductive Role where
  | moderator
  | employee
deriving DecidableEq, Repr

/-- Embedding of `pg_storage.CreateUser`: unique email constraint, then
the role list is flattened into the two boolean columns (password
hashing is an opaque capability and is not modelled). -/
def CreateUser (st : Store) (newId email : String) (roles : List Role) :
    Except Err (Client × Store) :=
  if st.clients.any (fun c => c.email = email) then .error .dbUnique
  else if st.clients.any (fun c => c.id = newId) then .error .dbUnique
  else
    .ok (⟨newId, email, roles.contains .moderator, roles.contains .employee⟩,
         { st with
             clients := st.clients ++
               [⟨newId, email, roles.contains .moderator, roles.contains .employee⟩],
             clock := st.clock + 1 })

end Pvz

namespace Pvz

/-- Inversion of a successful `OpenReception`: the guards that must
have passed and the exact shape of the result. -/
theorem OpenReception_ok_inv {st : Store} {newId author pvz : String}
    {out : ReceptionOut} {st' : Store}
    (h : OpenReception st newId author pvz = .ok (out, st')) :
    IsUUID author = true ∧ IsUUID pvz = true ∧
    openReceptionsFor st pvz = [] ∧
    st.pvzs.any (fun z => z.id = pvz) = true ∧
    st.clients.any (fun c => c.id = author) = true ∧
    st.receptions.any (fun r => r.id = newId) = false ∧
    out = ⟨newId, st.clock, pvz, .active⟩ ∧
    st' = { st with receptions := st.receptions ++ [⟨newId, some author, pvz, true, st.clock⟩],
                    clock := st.clock + 1 } := by
  unfold OpenReception checkReception at h
  split at h
  case isTrue => simp at h
  case isFalse hu =>
    rw [not_not, Bool.and_eq_true] at hu
    split at h
    case h_1 e heq => simp at h
    case h_2 heq =>
      split at heq
      case isTrue => simp at heq
      case isFalse =>
        split at heq
        case isFalse => simp at heq
        case isTrue hemp =>
          rw [List.isEmpty_iff] at hemp
          split at h
          case isTrue => simp at h
          case isFalse hz =>
            split at h
            case isTrue => simp at h
            case isFalse hc =>
              split at h
              case isTrue => simp at h
              case isFalse hr =>
                have h2 := Except.ok.inj h
                refine ⟨hu.1, hu.2, hemp, ?_, ?_, ?_, ?_, ?_⟩
                · simpa using hz
                · simpa using hc
                · simpa using hr
                · simpa [statusOfBool] using (congrArg Prod.fst h2).symm
                · exact (congrArg Prod.snd h2).symm

/-- Inversion of a successful `CloseLastReception`. -/
theorem CloseLastReception_ok_inv {st : Store} {uuid : String}
    {out : ReceptionOut} {st' : Store}
    (h : CloseLastReception st uuid = .ok (out, st')) :
    IsUUID uuid = true ∧ ∃ r, lastOpenReception st uuid = some r ∧
      out = ⟨r.id, r.registrationDate, r.pvzId, .inactive⟩ ∧
      st' = { st with receptions := st.receptions.map fun x =>
                if x.pvzId = uuid then { x with activity := false } else x } := by
  unfold CloseLastReception at h
  split at h
  case isTrue => simp at h
  case isFalse hu =>
    rw [not_not] at hu
    split at h
    case h_1 => simp at h
    case h_2 r heq =>
      have h2 := Except.ok.inj h
      exact ⟨hu, r, heq, (congrArg Prod.fst h2).symm, (congrArg Prod.snd h2).symm⟩

/-- Inversion of a successful `AddProduct`. -/
theorem AddProduct_ok_inv {st : Store} {newId uuid author product : String}
    {out : ProductOut} {st' : Store}
    (h : AddProduct st newId uuid author product = .ok (out, st')) :
    IsUUID uuid = true ∧ ∃ r, lastOpenReception st uuid = some r ∧
      validProductType product = true ∧
      st.products.any (fun p => p.id = newId) = false ∧
      out = ⟨newId, st.clock, product, r.id⟩ ∧
      st' = { st with
        products := st.products ++
          [⟨newId, if author = "" then none else some author, r.id, product, st.clock⟩],
        clock := st.clock + 1 } := by
  unfold AddProduct at h
  split at h
  case isTrue => simp at h
  case isFalse hu =>
    rw [not_not] at hu
    split at h
    case h_1 => simp at h
    case h_2 r heq =>
      split at h
      case isTrue => simp at h
      case isFalse =>
        split at h
        case isTrue => simp at h
        case isFalse hv =>
          rw [not_not] at hv
          split at h
          case isTrue => simp at h
          case isFalse =>
            split at h
            case isTrue => simp at h
            case isFalse hf =>
              have h2 := Except.ok.inj h
              refine ⟨hu, r, heq, hv, by simpa using hf,
                (congrArg Prod.fst h2).symm, (congrArg Prod.snd h2).symm⟩

/-- Inversion of a successful `DeleteLastProduct`. -/
theorem DeleteLastProduct_ok_inv {st : Store} {uuid : String} {st' : Store}
    (h : DeleteLastProduct st uuid = .ok st') :
    IsUUID uuid = true ∧ ∃ r q, lastOpenReception st uuid = some r ∧
      lastProductOf st r.id = some q ∧
      st' = { st with products := st.products.filter fun x => x.id ≠ q.id } := by
  unfold DeleteLastProduct at h
  split at h
  case isTrue => simp at h
  case isFalse hu =>
    rw [not_not] at hu
    split at h
    case h_1 => simp at h
    case h_2 r heq =>
      split at h
      case h_1 => simp at h
      case h_2 q heq2 => exact ⟨hu, r, q, heq, heq2, (Except.ok.inj h).symm⟩

/-- A successful `CreatePvz` never touches the `receptions` table. -/
theorem CreatePvz_receptions {st : Store} {newId author : String}
    {params : PvzParams} {out : PvzOut} {st' : Store}
    (h : CreatePvz st newId author params = .ok (out, st')) :
    st'.receptions = st.receptions := by
  unfold CreatePvz at h
  split at h
  case h_1 => simp at h
  case h_2 =>
    split at h
    case isTrue => simp at h
    case isFalse =>
      split at h
      case isTrue => simp at h
      case isFalse =>
        split at h
        case isTrue => simp at h
        case isFalse =>
          simp only [Except.ok.injEq, Prod.mk.injEq] at h
          obtain ⟨-, hs⟩ := h
          rw [← hs]

/-- A successful `CreateUser` never touches the `receptions` table. -/
theorem CreateUser_receptions {st : Store} {newId email : String}
    {roles : List Role} {c : Client} {st' : Store}
    (h : CreateUser st newId email roles = .ok (c, st')) :
    st'.receptions = st.receptions := by
  unfold CreateUser at h
  split at h
  case isTrue => simp at h
  case isFalse =>
    split at h
    case isTrue => simp at h
    case isFalse =>
      simp only [Except.ok.injEq, Prod.mk.injEq] at h
      obtain ⟨-, hs⟩ := h
      rw [← hs]

/-- The spec invariant: per PVZ at most one reception row has
`activity = true`. -/
def AtMostOneOpen (st : Store) : Prop :=
  ∀ p : String, st.receptions.countP (fun r => r.pvzId = p && r.activity) ≤ 1

theorem atMostOneOpen_init : AtMostOneOpen initStore := by
  intro p
  simp [initStore]

theorem OpenReception_preserves {st : Store} {newId author pvz : String}
    {out : ReceptionOut} {st' : Store} (hin : AtMostOneOpen st)
    (h : OpenReception st newId author pvz = .ok (out, st')) : AtMostOneOpen st' := by
  obtain ⟨-, -, hemp, -, -, -, -, hst⟩ := OpenReception_ok_inv h
  subst hst
  intro q
  simp only [List.countP_append]
  by_cases hq : q = pvz
  · subst hq
    have h0 : st.receptions.countP (fun r => r.pvzId = q && r.activity) = 0 := by
      have hlen := congrArg List.length hemp
      rw [List.countP_eq_length_filter]
      simpa [openReceptionsFor] using hlen
    rw [h0]
    simp [List.countP_cons]
  · have h1 : List.countP (fun r => r.pvzId = q && r.activity)
        [(⟨newId, some author, pvz, true, st.clock⟩ : ReceptionRow)] = 0 := by
      simp [List.countP_cons, Ne.symm hq]
    rw [h1]
    simpa using hin q

theorem CloseLastReception_preserves {st : Store} {uuid : String}
    {out : ReceptionOut} {st' : Store} (hin : AtMostOneOpen st)
    (h : CloseLastReception st uuid = .ok (out, st')) : AtMostOneOpen st' := by
  obtain ⟨-, r, -, -, hst⟩ := CloseLastReception_ok_inv h
  subst hst
  intro q
  rw [List.countP_map]
  refine le_trans (List.countP_mono_left ?_) (hin q)
  intro x hx hpx
  by_cases hxu : x.pvzId = uuid
  · simp [Function.comp, hxu] at hpx
  · simpa [Function.comp, hxu] using hpx

theorem AddProduct_preserves {st : Store} {newId uuid author product : String}
    {out : ProductOut} {st' : Store} (hin : AtMostOneOpen st)
    (h : AddProduct st newId uuid author product = .ok (out, st')) : AtMostOneOpen st' := by
  obtain ⟨-, r, -, -, -, -, hst⟩ := AddProduct_ok_inv h
  subst hst
  exact hin

theorem DeleteLastProduct_preserves {st : Store} {uuid : String} {st' : Store}
    (hin : AtMostOneOpen st)
    (h : DeleteLastProduct st uuid = .ok st') : AtMostOneOpen st' := by
  obtain ⟨-, r, q, -, -, hst⟩ := DeleteLastProduct_ok_inv h
  subst hst
  exact hin

/-- The states reachable from the empty database through the storage
operations (each constructor records one successful call; the freshly
generated uuid of an INSERT appears as the explicit `newId`). -/
inductive Reachable : Store → Prop where
  | init : Reachable initStore
  | createUser {st st' : Store} {c : Client} (newId email : String) (roles : List Role) :
      Reachable st → CreateUser st newId email roles = .ok (c, st') → Reachable st'
  | createPvz {st st' : Store} {out : PvzOut} (newId author : String) (params : PvzParams) :
      Reachable st → CreatePvz st newId author params = .ok (out, st') → Reachable st'
  | openReception {st st' : Store} {out : ReceptionOut} (newId author pvz : String) :
      Reachable st → OpenReception st newId author pvz = .ok (out, st') → Reachable st'
  | closeReception {st st' : Store} {out : ReceptionOut} (uuid : String) :
      Reachable st → CloseLastReception st uuid = .ok (out, st') → Reachable st'
  | addProduct {st st' : Store} {out : ProductOut} (newId uuid author product : String) :
      Reachable st → AddProduct st newId uuid author product = .ok (out, st') → Reachable st'
  | deleteLastProduct {st st' : Store} (uuid : String) :
      Reachable st → DeleteLastProduct st uuid = .ok st' → Reachable st'

theorem reachable_atMostOneOpen {st : Store} (h : Reachable st) : AtMostOneOpen st := by
  induction h with
  | init => exact atMostOneOpen_init
  | createUser _ _ _ _ hok ih =>
      intro q; rw [CreateUser_receptions hok]; exact ih q
  | createPvz _ _ _ _ hok ih =>
      intro q; rw [CreatePvz_receptions hok]; exact ih q
  | openReception _ _ _ _ hok ih => exact OpenReception_preserves ih hok
  | closeReception _ _ hok ih => exact CloseLastReception_preserves ih hok
  | addProduct _ _ _ _ _ hok ih => exact AddProduct_preserves ih hok
  | deleteLastProduct _ _ hok ih => exact DeleteLastProduct_preserves ih hok

/-- C1: for every reachable store state and for every PVZ, at most one
reception belonging to that PVZ has `isOpen = true`
(`activity = true`); and each of openReception, closeReception,
addProduct and deleteLastProduct preserves this invariant. -/
theorem C1_at_most_one_open_reception :
    (∀ st : Store, Reachable st → AtMostOneOpen st) ∧
    (∀ (st : Store) (newId author pvz : String) (out : ReceptionOut) (st' : Store),
      AtMostOneOpen st → OpenReception st newId author pvz = .ok (out, st') →
      AtMostOneOpen st') ∧
    (∀ (st : Store) (uuid : String) (out : ReceptionOut) (st' : Store),
      AtMostOneOpen st → CloseLastReception st uuid = .ok (out, st') →
      AtMostOneOpen st') ∧
    (∀ (st : Store) (newId uuid author product : String) (out : ProductOut) (st' : Store),
      AtMostOneOpen st → AddProduct st newId uuid author product = .ok (out, st') →
      AtMostOneOpen st') ∧
    (∀ (st : Store) (uuid : String) (st' : Store),
      AtMostOneOpen st → DeleteLastProduct st uuid = .ok st' →
      AtMostOneOpen st') :=
  ⟨fun _ h => reachable_atMostOneOpen h,
   fun _ _ _ _ _ _ hin hok => OpenReception_preserves hin hok,
   fun _ _ _ _ hin hok => CloseLastReception_preserves hin hok,
   fun _ _ _ _ _ _ _ hin hok => AddProduct_preserves hin hok,
   fun _ _ _ hin hok => DeleteLastProduct_preserves hin hok⟩

end Pvz

namespace Pvz

/-- Concrete uuid strings (matching the `IsUUID` format: version digit
1, variant 8) used by the concrete witness states below. -/
def uA : String := "aaaaaaaa-aaaa-1aaa-8aaa-aaaaaaaaaaaa"

def uB : String := "bbbbbbbb-bbbb-1bbb-8bbb-bbbbbbbbbbbb"

def uC : String := "cccccccc-cccc-1ccc-8ccc-cccccccccccc"

def uD : String := "dddddddd-dddd-1ddd-8ddd-dddddddddddd"

def uE : String := "eeeeeeee-eeee-1eee-8eee-eeeeeeeeeeee"

def uF : String := "11111111-1111-1111-8111-111111111111"

/-- State after registering one employee user on the empty database. -/
def wStore1 : Store := ⟨[⟨uA, "m@example.com", false, true⟩], [], [], [], 1⟩

/-- `wStore1` after a `CreatePvz` with empty author. -/
def wStore2 : Store :=
  ⟨[⟨uA, "m@example.com", false, true⟩], [⟨uB, none, "Москва", 1⟩], [], [], 2⟩

/-- `wStore2` after opening a reception on the PVZ. -/
def wStore3 : Store :=
  ⟨[⟨uA, "m@example.com", false, true⟩], [⟨uB, none, "Москва", 1⟩],
   [⟨uC, some uA, uB, true, 2⟩], [], 3⟩

/-- Witness for C1: a concrete reachable state (register a user, create
a PVZ, open a reception) on which the invariant theorem is instantiated
at the PVZ `uB`. -/
theorem C1_at_most_one_open_reception_witness :
    (wStore3.receptions.countP fun r => r.pvzId = uB && r.activity) ≤ 1 :=
  C1_at_most_one_open_reception.1 wStore3
    (Reachable.openReception uC uA uB
      (Reachable.createPvz uB "" ⟨none, none, "Москва"⟩
        (Reachable.createUser uA "m@example.com" [Role.employee] Reachable.init (by rfl))
        (by rfl))
      (by rfl)) uB

end Pvz

namespace Pvz

/-- For a valid pvz uuid with no open reception, CloseLastReception
returns the generic no-rows error (the source's only failure for both
the no-reception and already-closed situations). -/
theorem CloseLastReception_noRows {st : Store} {p : String}
    (hp : IsUUID p = true) (hnone : lastOpenReception st p = none) :
    CloseLastReception st p = .error .noRows := by
  unfold CloseLastReception
  rw [hp, hnone]
  simp

/-- The success case of CloseLastReception: the selected reception is
reported closed, and the UPDATE clears `activity` on every reception of
the PVZ. -/
theorem CloseLastReception_ok {st : Store} {p : String} {r : ReceptionRow}
    (hp : IsUUID p = true) (hsome : lastOpenReception st p = some r) :
    CloseLastReception st p = .ok (⟨r.id, r.registrationDate, r.pvzId, .inactive⟩,
      { st with receptions := st.receptions.map fun x =>
          if x.pvzId = p then { x with activity := false } else x }) := by
  unfold CloseLastReception
  rw [hp, hsome]
  simp

/-- After CloseLastReception, a reception that was closed before is
still closed (ids assumed unique, as the primary key guarantees). -/
theorem CloseLastReception_no_reopen {st : Store} {uuid : String}
    {out : ReceptionOut} {st' : Store}
    (hnd : (st.receptions.map ReceptionRow.id).Nodup)
    (h : CloseLastReception st uuid = .ok (out, st')) :
    ∀ x ∈ st.receptions, x.activity = false →
      ∀ y ∈ st'.receptions, y.id = x.id → y.activity = false := by
  obtain ⟨-, r, -, -, hst⟩ := CloseLastReception_ok_inv h
  subst hst
  intro x hx hxa y hy hid
  simp only [List.mem_map] at hy
  obtain ⟨x', hx', hfx⟩ := hy
  have hid' : x'.id = x.id := by
    by_cases hc : x'.pvzId = uuid
    · rw [← hid, ← hfx]; simp [hc]
    · rw [← hid, ← hfx]; simp [hc]
  have hxx : x' = x := List.inj_on_of_nodup_map hnd hx' hx hid'
  subst hxx
  by_cases hc : x'.pvzId = uuid
  · rw [← hfx]; simp [hc]
  · rw [← hfx]; simp [hc, hxa]

end Pvz

namespace Pvz

/-- After OpenReception, a reception that was closed before is still
closed: the operation only appends a fresh row (ids assumed unique, as
the primary key guarantees). -/
theorem OpenReception_no_reopen {st : Store} {newId author pvz : String}
    {out : ReceptionOut} {st' : Store}
    (hnd : (st.receptions.map ReceptionRow.id).Nodup)
    (h : OpenReception st newId author pvz = .ok (out, st')) :
    ∀ x ∈ st.receptions, x.activity = false →
      ∀ y ∈ st'.receptions, y.id = x.id → y.activity = false := by
  obtain ⟨-, -, -, -, -, hfresh, -, hst⟩ := OpenReception_ok_inv h
  subst hst
  intro x hx hxa y hy hid
  simp only [List.mem_append, List.mem_singleton] at hy
  rcases hy with hy | hy
  · have hyx : y = x := List.inj_on_of_nodup_map hnd hy hx hid
    rw [hyx]
    exact hxa
  · have hxid : x.id ≠ newId := by
      have hall := List.any_eq_false.mp hfresh
      simpa using hall x hx
    rw [hy] at hid
    exact absurd hid.symm (by simpa using hxid)

end Pvz

namespace Pvz

/-- A successful `AddProduct` never touches the `receptions` table. -/
theorem AddProduct_receptions {st : Store} {newId uuid author product : String}
    {out : ProductOut} {st' : Store}
    (h : AddProduct st newId uuid author product = .ok (out, st')) :
    st'.receptions = st.receptions := by
  obtain ⟨-, r, -, -, -, -, hst⟩ := AddProduct_ok_inv h
  subst hst
  rfl

/-- A successful `DeleteLastProduct` never touches the `receptions` table. -/
theorem DeleteLastProduct_receptions {st : Store} {uuid : String} {st' : Store}
    (h : DeleteLastProduct st uuid = .ok st') :
    st'.receptions = st.receptions := by
  obtain ⟨-, r, q, -, -, hst⟩ := DeleteLastProduct_ok_inv h
  subst hst
  rfl

theorem lastMaxBy_eq_none {α : Type} {f : α → Nat} {l : List α} :
    lastMaxBy f l = none ↔ l = [] := by
  cases l with
  | nil => simp [lastMaxBy]
  | cons x xs =>
    rcases hxs : lastMaxBy f xs with _ | y
    · simp [lastMaxBy, hxs]
    · simp only [lastMaxBy, hxs]
      constructor
      · intro h
        split at h <;> simp at h
      · intro h
        simp at h

/-- Characterisation of the `ORDER BY registration_date DESC LIMIT 1`
embedding: the selected element carries the maximal timestamp and is
the last-inserted one among equals (everything after it is strictly
older). -/
theorem lastMaxBy_spec {α : Type} {f : α → Nat} {l : List α} {a : α}
    (h : lastMaxBy f l = some a) :
    ∃ l1 l2, l = l1 ++ a :: l2 ∧ (∀ x ∈ l1, f x ≤ f a) ∧ (∀ x ∈ l2, f x < f a) := by
  induction l generalizing a with
  | nil => simp [lastMaxBy] at h
  | cons x xs ih =>
    rcases hxs : lastMaxBy f xs with _ | y
    · have hnil : xs = [] := lastMaxBy_eq_none.mp hxs
      subst hnil
      simp only [lastMaxBy] at h
      injection h with h
      subst h
      exact ⟨[], [], rfl, by simp, by simp⟩
    · simp only [lastMaxBy, hxs] at h
      split at h
      case isTrue hlt =>
        injection h with h
        subst h
        obtain ⟨l1, l2, hdec, hle, hgt⟩ := ih hxs
        refine ⟨[], xs, rfl, by simp, ?_⟩
        intro z hz
        rw [hdec] at hz
        rcases List.mem_append.mp hz with hz | hz
        · exact lt_of_le_of_lt (hle z hz) hlt
        · rcases List.mem_cons.mp hz with hz | hz
          · rw [hz]; exact hlt
          · exact lt_trans (hgt z hz) hlt
      case isFalse hge =>
        injection h with h
        subst h
        obtain ⟨l1, l2, hdec, hle, hgt⟩ := ih hxs
        refine ⟨x :: l1, l2, ?_, ?_, hgt⟩
        · rw [hdec, List.cons_append]
        · intro z hz
          rcases List.mem_cons.mp hz with hz | hz
          · rw [hz]; exact Nat.le_of_not_lt hge
          · exact hle z hz

/-- Appending a row whose timestamp dominates the whole list makes it
the row selected by the `DESC LIMIT 1` query. -/
theorem lastMaxBy_append_last {α : Type} {f : α → Nat} {l : List α} {x : α}
    (h : ∀ y ∈ l, f y ≤ f x) :
    lastMaxBy f (l ++ [x]) = some x := by
  induction l with
  | nil => rfl
  | cons z zs ih =>
    rw [List.cons_append, lastMaxBy, ih fun y hy => h y (List.mem_cons_of_mem z hy)]
    have hz := h z (List.mem_cons_self z zs)
    simp [Nat.not_lt.mpr hz]

end Pvz

namespace Pvz

/-- C2 (corrected).  `closeReception(p)` issues one lookup for the most
recent OPEN reception; when none exists — whether the PVZ has no
reception at all or its most recent reception is already closed — it
fails with the same generic no-rows error (a `NotFoundError`), never
with a distinct `ConflictError`.  On success it reports the selected
reception closed and clears `activity` on the PVZ's receptions (the
UPDATE hits them all).  Closing is one-way: no operation turns
`activity` back on for an existing reception, and addProduct /
deleteLastProduct leave the receptions table untouched. -/
theorem C2_close_reception_corrected :
    (∀ (st : Store) (p : String), IsUUID p = true → openReceptionsFor st p = [] →
      CloseLastReception st p = .error .noRows ∧ Err.noRows.isNotFoundError = true) ∧
    (∀ (st : Store) (p : String) (r : ReceptionRow),
      IsUUID p = true → lastOpenReception st p = some r →
      CloseLastReception st p = .ok (⟨r.id, r.registrationDate, r.pvzId, .inactive⟩,
        { st with receptions := st.receptions.map fun x =>
            if x.pvzId = p then { x with activity := false } else x })) ∧
    (∀ (st : Store) (uuid : String) (out : ReceptionOut) (st' : Store),
      (st.receptions.map ReceptionRow.id).Nodup →
      CloseLastReception st uuid = .ok (out, st') →
      ∀ x ∈ st.receptions, x.activity = false →
        ∀ y ∈ st'.receptions, y.id = x.id → y.activity = false) ∧
    (∀ (st : Store) (newId author pvz : String) (out : ReceptionOut) (st' : Store),
      (st.receptions.map ReceptionRow.id).Nodup →
      OpenReception st newId author pvz = .ok (out, st') →
      ∀ x ∈ st.receptions, x.activity = false →
        ∀ y ∈ st'.receptions, y.id = x.id → y.activity = false) ∧
    (∀ (st : Store) (newId uuid author product : String) (out : ProductOut) (st' : Store),
      AddProduct st newId uuid author product = .ok (out, st') →
      st'.receptions = st.receptions) ∧
    (∀ (st : Store) (uuid : String) (st' : Store),
      DeleteLastProduct st uuid = .ok st' → st'.receptions = st.receptions) := by
  refine ⟨?_, ?_, ?_, ?_, ?_, ?_⟩
  · intro st p hp hemp
    refine ⟨CloseLastReception_noRows hp ?_, rfl⟩
    unfold lastOpenReception
    rw [hemp]
    rfl
  · intro st p r hp hsome
    exact CloseLastReception_ok hp hsome
  · intro st uuid out st' hnd h
    exact CloseLastReception_no_reopen hnd h
  · intro st newId author pvz out st' hnd h
    exact OpenReception_no_reopen hnd h
  · intro st newId uuid author product out st' h
    exact AddProduct_receptions h
  · intro st uuid st' h
    exact DeleteLastProduct_receptions h

/-- PVZ `uB` exists but has no reception at all. -/
def cexStoreNoReception : Store := ⟨[], [⟨uB, none, "Москва", 0⟩], [], [], 1⟩

/-- PVZ `uB` whose only — hence most recent — reception is closed. -/
def cexStoreClosedReception : Store :=
  ⟨[], [⟨uB, none, "Москва", 0⟩], [⟨uC, none, uB, false, 0⟩], [], 1⟩

/-- C2 counterexample: when the most recent reception is already
closed, `closeReception` does NOT fail with a `ConflictError`; it
returns exactly the same no-rows error as when no reception exists at
all. -/
theorem C2_counterexample :
    CloseLastReception cexStoreClosedReception uB = .error .noRows ∧
    CloseLastReception cexStoreClosedReception uB =
      CloseLastReception cexStoreNoReception uB ∧
    Err.noRows.isConflictError = false :=
  ⟨rfl, rfl, rfl⟩

/-- Witness for C2: closing the open reception of the concrete state
`wStore3` succeeds and clears the `activity` flag. -/
theorem C2_close_reception_corrected_witness :
    CloseLastReception wStore3 uB = .ok (⟨uC, 2, uB, .inactive⟩,
      ⟨[⟨uA, "m@example.com", false, true⟩], [⟨uB, none, "Москва", 1⟩],
       [⟨uC, some uA, uB, false, 2⟩], [], 3⟩) := by
  have h := C2_close_reception_corrected.2.1 wStore3 uB
    ⟨uC, some uA, uB, true, 2⟩ (by rfl) (by rfl)
  exact h.trans (by rfl)

end Pvz

namespace Pvz

/-- C3 (corrected).  With an open reception holding at least one
product, `deleteLastProduct(p)` removes exactly the product with the
maximal creation timestamp (ties resolved to the most recently inserted
row) and nothing else.  With an open reception holding zero products it
fails with the no-rows `NotFoundError`.  When no reception is open it
fails with that SAME no-rows error — not with a distinct
`ConflictError` as the claim states. -/
theorem C3_delete_last_product_corrected :
    (∀ (st : Store) (p : String) (r : ReceptionRow) (q : ProductRow),
      IsUUID p = true →
      (st.products.map ProductRow.id).Nodup →
      lastOpenReception st p = some r →
      lastProductOf st r.id = some q →
      DeleteLastProduct st p =
        .ok { st with products := st.products.filter fun x => x.id ≠ q.id } ∧
      (∃ l1 l2, productsOfReception st r.id = l1 ++ q :: l2 ∧
        (∀ x ∈ l1, x.registrationDate ≤ q.registrationDate) ∧
        (∀ x ∈ l2, x.registrationDate < q.registrationDate)) ∧
      (∃ g1 g2, st.products = g1 ++ q :: g2 ∧
        (st.products.filter fun x => x.id ≠ q.id) = g1 ++ g2)) ∧
    (∀ (st : Store) (p : String) (r : ReceptionRow),
      IsUUID p = true → lastOpenReception st p = some r →
      productsOfReception st r.id = [] →
      DeleteLastProduct st p = .error .noRows ∧ Err.noRows.isNotFoundError = true) ∧
    (∀ (st : Store) (p : String),
      IsUUID p = true → lastOpenReception st p = none →
      DeleteLastProduct st p = .error .noRows ∧
      Err.noRows.isConflictError = false) := by
  refine ⟨?_, ?_, ?_⟩
  · intro st p r q hp hnd hro hq
    refine ⟨?_, ?_, ?_⟩
    · unfold DeleteLastProduct
      rw [hp, hro]
      simp [hq]
    · exact lastMaxBy_spec hq
    · have hqmem : q ∈ st.products := by
        obtain ⟨l1, l2, hdec, -, -⟩ := lastMaxBy_spec hq
        have : q ∈ productsOfReception st r.id := by
          rw [hdec]
          exact List.mem_append.mpr (Or.inr (List.mem_cons_self q l2))
        exact (List.mem_filter.mp this).1
      obtain ⟨g1, g2, hdec⟩ := List.append_of_mem hqmem
      refine ⟨g1, g2, hdec, ?_⟩
      have hnd' : ((g1.map ProductRow.id) ++ q.id :: (g2.map ProductRow.id)).Nodup := by
        rw [← List.map_cons, ← List.map_append, ← hdec]
        exact hnd
      obtain ⟨-, hnd2, hdisj⟩ := List.nodup_append.mp hnd'
      have hq1 : ∀ x ∈ g1, x.id ≠ q.id := by
        intro x hx
        have := List.disjoint_left.mp hdisj (List.mem_map_of_mem ProductRow.id hx)
        intro hcon
        exact this (by rw [← hcon]; exact List.mem_cons_self _ _)
      have hq2 : ∀ x ∈ g2, x.id ≠ q.id := by
        intro x hx hcon
        have := (List.nodup_cons.mp hnd2).1
        exact this (by rw [← hcon]; exact List.mem_map_of_mem ProductRow.id hx)
      rw [hdec, List.filter_append]
      have hg1 : (g1.filter fun x => x.id ≠ q.id) = g1 :=
        List.filter_eq_self.mpr fun a ha => by simpa using hq1 a ha
      have hg2 : ((q :: g2).filter fun x => x.id ≠ q.id) = g2 := by
        have h1 : ((q :: g2).filter fun x => x.id ≠ q.id) =
            g2.filter fun x => x.id ≠ q.id := by
          simp [List.filter_cons]
        rw [h1]
        exact List.filter_eq_self.mpr fun a ha => by simpa using hq2 a ha
      rw [hg1, hg2]
  · intro st p r hp hro hemp
    refine ⟨?_, rfl⟩
    unfold DeleteLastProduct
    rw [hp, hro]
    have hnoq : lastProductOf st r.id = none := by
      unfold lastProductOf
      rw [hemp]
      rfl
    simp [hnoq]
  · intro st p hp hnone
    refine ⟨?_, rfl⟩
    unfold DeleteLastProduct
    rw [hp, hnone]
    simp

end Pvz

namespace Pvz

/-- PVZ `uB` has a closed reception containing one product; no
reception is open. -/
def cexStoreClosedWithProduct : Store :=
  ⟨[], [⟨uB, none, "Москва", 0⟩], [⟨uC, none, uB, false, 0⟩],
   [⟨uD, none, uC, "обувь", 0⟩], 1⟩

/-- C3 counterexample: with no open reception, `deleteLastProduct`
fails with the generic no-rows error, which is not a `ConflictError`
(it is the same error the zero-products case produces). -/
theorem C3_counterexample :
    DeleteLastProduct cexStoreClosedWithProduct uB = .error .noRows ∧
    Err.noRows.isConflictError = false :=
  ⟨rfl, rfl⟩

/-- `wStore3` with two products (timestamps 3 and 4) in the open
reception. -/
def wStore5 : Store :=
  ⟨[⟨uA, "m@example.com", false, true⟩], [⟨uB, none, "Москва", 1⟩],
   [⟨uC, some uA, uB, true, 2⟩],
   [⟨uD, none, uC, "одежда", 3⟩, ⟨uE, none, uC, "обувь", 4⟩], 5⟩

/-- Witness for C3: deleting on `wStore5` removes exactly the newest
product `uE`. -/
theorem C3_delete_last_product_corrected_witness :
    DeleteLastProduct wStore5 uB =
      .ok { wStore5 with products := wStore5.products.filter fun x => x.id ≠ uE } :=
  (C3_delete_last_product_corrected.1 wStore5 uB ⟨uC, some uA, uB, true, 2⟩
    ⟨uE, none, uC, "обувь", 4⟩ (by rfl) (by decide) (by rfl) (by rfl)).1

end Pvz

namespace Pvz

/-- C4 (corrected).  `addProduct` looks up the open reception FIRST:
with no open reception it fails with the no-rows `NotFoundError`
regardless of the product type (not with `ValidationError`, and not
with a `ConflictError` either — the handler's type check is dead code
and the no-rows error is the generic lookup failure).  Only when an
open reception exists is an unrecognized type rejected, by the
`product_types` enum at INSERT time (a `ValidationError`).  On success
the product row carries the given type and the current timestamp. -/
theorem C4_add_product_corrected :
    (∀ (st : Store) (newId p author t : String),
      IsUUID p = true → lastOpenReception st p = none →
      AddProduct st newId p author t = .error .noRows ∧
      Err.noRows.isValidationError = false ∧
      Err.noRows.isConflictError = false ∧
      Err.noRows.isNotFoundError = true) ∧
    (∀ (st : Store) (newId p author t : String) (r : ReceptionRow),
      IsUUID p = true → lastOpenReception st p = some r →
      (author = "" ∨ parseUUIDOk author = true) →
      validProductType t = false →
      AddProduct st newId p author t = .error .dbEnum ∧
      Err.dbEnum.isValidationError = true) ∧
    (∀ (st : Store) (newId p author t : String) (out : ProductOut) (st' : Store),
      AddProduct st newId p author t = .ok (out, st') →
      ∃ r, lastOpenReception st p = some r ∧ validProductType t = true ∧
        out = ⟨newId, st.clock, t, r.id⟩ ∧
        st'.products = st.products ++
          [⟨newId, if author = "" then none else some author, r.id, t, st.clock⟩]) := by
  refine ⟨?_, ?_, ?_⟩
  · intro st newId p author t hp hnone
    refine ⟨?_, rfl, rfl, rfl⟩
    unfold AddProduct
    rw [hp, hnone]
    simp
  · intro st newId p author t r hp hro hauthor hv
    refine ⟨?_, rfl⟩
    unfold AddProduct
    rw [hp, hro]
    rcases hauthor with ha | ha
    · subst ha
      simp [hv]
    · simp [ha, hv]
  · intro st newId p author t out st' h
    obtain ⟨-, r, hro, hv, -, hout, hst⟩ := AddProduct_ok_inv h
    subst hst
    exact ⟨r, hro, hv, hout, rfl⟩

/-- C4 counterexample: on a PVZ with no open reception, adding a
product of an invalid type fails with the no-rows error, not with a
`ValidationError` as claimed. -/
theorem C4_counterexample :
    AddProduct cexStoreClosedWithProduct uE uB "" "мяу" = .error .noRows ∧
    Err.noRows.isValidationError = false :=
  ⟨rfl, rfl⟩

/-- Witness for C4: with an open reception present (`wStore3`), an
unrecognized type is rejected by the enum. -/
theorem C4_add_product_corrected_witness :
    AddProduct wStore3 uD uB "" "мяу" = .error .dbEnum :=
  (C4_add_product_corrected.2.1 wStore3 uD uB "" "мяу"
    ⟨uC, some uA, uB, true, 2⟩ (by rfl) (by rfl) (Or.inl rfl) (by rfl)).1

end Pvz

namespace Pvz

/-- With well-formed uuids and an open reception present, OpenReception
fails with the conflict error from `checkReception`. -/
theorem OpenReception_conflict {st : Store} {newId author pvz : String}
    (ha : IsUUID author = true) (hp : IsUUID pvz = true)
    (hne : openReceptionsFor st pvz ≠ []) :
    OpenReception st newId author pvz = .error .openedReceptionExists := by
  unfold OpenReception checkReception
  rw [ha, hp]
  simp [List.isEmpty_iff, hne]

/-- C6 (confirmed).  `openReception(pvzId)`: a malformed pvz id fails
with the uuid `ValidationError`; an already-open reception fails with
the `ConflictError`; a well-formed but unknown pvz id fails with the
foreign-key rejection (`NotFoundError`); success inserts and returns a
reception with `isOpen = true`; and a second openReception right after
a successful one (no intervening close) fails with the `ConflictError`. -/
theorem C6_open_reception_errors :
    (∀ (st : Store) (newId author p : String), IsUUID p = false →
      OpenReception st newId author p = .error .uuidNotValidReception ∧
      Err.uuidNotValidReception.isValidationError = true) ∧
    (∀ (st : Store) (newId author p : String), IsUUID author = true →
      IsUUID p = true → openReceptionsFor st p ≠ [] →
      OpenReception st newId author p = .error .openedReceptionExists ∧
      Err.openedReceptionExists.isConflictError = true) ∧
    (∀ (st : Store) (newId author p : String), IsUUID author = true →
      IsUUID p = true → openReceptionsFor st p = [] →
      st.pvzs.any (fun z => z.id = p) = false →
      OpenReception st newId author p = .error .dbForeignKey ∧
      Err.dbForeignKey.isNotFoundError = true) ∧
    (∀ (st : Store) (newId author p : String) (out : ReceptionOut) (st' : Store),
      OpenReception st newId author p = .ok (out, st') →
      out.status = .active ∧
      st' = { st with receptions := st.receptions ++ [⟨newId, some author, p, true, st.clock⟩],
                      clock := st.clock + 1 }) ∧
    (∀ (st : Store) (newId author p : String) (out : ReceptionOut) (st' : Store)
        (newId2 : String),
      OpenReception st newId author p = .ok (out, st') →
      OpenReception st' newId2 author p = .error .openedReceptionExists) := by
  refine ⟨?_, ?_, ?_, ?_, ?_⟩
  · intro st newId author p hp
    refine ⟨?_, rfl⟩
    unfold OpenReception
    simp [hp]
  · intro st newId author p ha hp hne
    exact ⟨OpenReception_conflict ha hp hne, rfl⟩
  · intro st newId author p ha hp hemp hz
    refine ⟨?_, rfl⟩
    unfold OpenReception checkReception
    rw [ha, hp]
    simp [List.isEmpty_iff, hemp, hz]
  · intro st newId author p out st' h
    obtain ⟨-, -, -, -, -, -, hout, hst⟩ := OpenReception_ok_inv h
    exact ⟨by rw [hout], hst⟩
  · intro st newId author p out st' newId2 h
    obtain ⟨ha, hp, -, -, -, -, -, hst⟩ := OpenReception_ok_inv h
    have hne : openReceptionsFor st' p ≠ [] := by
      subst hst
      simp [openReceptionsFor, List.filter_append]
    exact OpenReception_conflict ha hp hne

/-- Witness for C6: opening a second reception on `wStore3` (whose
reception is still open) is rejected with the conflict error. -/
theorem C6_open_reception_errors_witness :
    OpenReception wStore3 uD uA uB = .error .openedReceptionExists :=
  (C6_open_reception_errors.2.1 wStore3 uD uA uB (by rfl) (by rfl) (by decide)).1

end Pvz

namespace Pvz

/-- A store whose only client is a moderator (employee = false), plus a
PVZ. -/
def cexStoreModerator : Store :=
  ⟨[⟨uA, "mod@example.com", true, false⟩], [⟨uB, none, "Москва", 0⟩], [], [], 1⟩

/-- A store whose only client is an employee (moderator = false). -/
def cexStoreEmployee : Store :=
  ⟨[⟨uA, "emp@example.com", false, true⟩], [], [], [], 1⟩

/-- C7 (code bug, evaluation at the failing inputs).  The code enforces
no employee-role requirement: a caller whose only role is moderator
opens a reception successfully.  And `CreatePvz` skips even the
moderator check when the author id is empty — the subject id carried by
every dummy-login token — so a store containing no moderator at all
still gets a pickup point created.  The repository's own README role
table and its api test (which expects 403 when an employee creates a
PVZ) say otherwise, so this is a divergence of the code from its own
documentation and tests. -/
theorem C7_role_checks_not_enforced :
    (OpenReception cexStoreModerator uC uA uB =
      .ok (⟨uC, 1, uB, .active⟩,
        ⟨[⟨uA, "mod@example.com", true, false⟩], [⟨uB, none, "Москва", 0⟩],
         [⟨uC, some uA, uB, true, 1⟩], [], 2⟩)) ∧
    ((cexStoreModerator.clients.all fun c => c.employee = false) = true) ∧
    (CreatePvz cexStoreEmployee uD "" ⟨none, none, "Казань"⟩ =
      .ok (⟨uD, 1, "Казань"⟩,
        ⟨[⟨uA, "emp@example.com", false, true⟩], [⟨uD, none, "Казань", 1⟩], [], [], 2⟩)) ∧
    ((cexStoreEmployee.clients.all fun c => c.moderator = false) = true) :=
  ⟨rfl, rfl, rfl, rfl⟩

/-- C8 (confirmed): on any store whose product timestamps do not exceed
the clock (true of every state the operations produce), a successful
addProduct followed immediately by deleteLastProduct returns the
products table to exactly its previous contents. -/
theorem C8_add_delete_round_trip (st : Store) (newId p author : String)
    (out : ProductOut) (st1 : Store)
    (hts : ∀ x ∈ st.products, x.registrationDate ≤ st.clock)
    (h : AddProduct st newId p author "одежда" = .ok (out, st1)) :
    ∃ st2, DeleteLastProduct st1 p = .ok st2 ∧ st2.products = st.products := by
  obtain ⟨hp, r, hro, -, hfresh, -, hst⟩ := AddProduct_ok_inv h
  subst hst
  have hro1 : lastOpenReception
      { st with
          products := st.products ++
            [⟨newId, if author = "" then none else some author, r.id, "одежда", st.clock⟩],
          clock := st.clock + 1 } p = some r := hro
  have hprod : productsOfReception
      { st with
          products := st.products ++
            [⟨newId, if author = "" then none else some author, r.id, "одежда", st.clock⟩],
          clock := st.clock + 1 } r.id =
      productsOfReception st r.id ++
        [⟨newId, if author = "" then none else some author, r.id, "одежда", st.clock⟩] := by
    unfold productsOfReception
    rw [List.filter_append]
    simp
  have hlast : lastProductOf
      { st with
          products := st.products ++
            [⟨newId, if author = "" then none else some author, r.id, "одежда", st.clock⟩],
          clock := st.clock + 1 } r.id =
      some ⟨newId, if author = "" then none else some author, r.id, "одежда", st.clock⟩ := by
    unfold lastProductOf
    rw [hprod]
    refine lastMaxBy_append_last ?_
    intro y hy
    exact hts y (List.mem_filter.mp hy).1
  have hdel : DeleteLastProduct
      { st with
          products := st.products ++
            [⟨newId, if author = "" then none else some author, r.id, "одежда", st.clock⟩],
          clock := st.clock + 1 } p =
      .ok { st with
          products := (st.products ++
            [(⟨newId, if author = "" then none else some author, r.id, "одежда",
              st.clock⟩ : ProductRow)]).filter fun x => x.id ≠ newId,
          clock := st.clock + 1 } := by
    unfold DeleteLastProduct
    rw [hp, hro1]
    simp [hlast]
  refine ⟨_, hdel, ?_⟩
  have hall : ∀ x ∈ st.products, x.id ≠ newId := by
    intro x hx
    have := List.any_eq_false.mp hfresh x hx
    simpa using this
  show ((st.products ++
      [(⟨newId, if author = "" then none else some author, r.id, "одежда",
        st.clock⟩ : ProductRow)]).filter fun x => x.id ≠ newId) = st.products
  rw [List.filter_append]
  have h1 : (st.products.filter fun x => x.id ≠ newId) = st.products :=
    List.filter_eq_self.mpr fun a ha => by simpa using hall a ha
  rw [h1]
  simp

/-- Witness for C8: the concrete round trip on `wStore3`. -/
theorem C8_add_delete_round_trip_witness :
    ∃ st2, DeleteLastProduct
      ⟨[⟨uA, "m@example.com", false, true⟩], [⟨uB, none, "Москва", 1⟩],
       [⟨uC, some uA, uB, true, 2⟩], [⟨uD, none, uC, "одежда", 3⟩], 4⟩ uB = .ok st2 ∧
    st2.products = wStore3.products :=
  C8_add_delete_round_trip wStore3 uD uB "" ⟨uD, 3, "одежда", uC⟩
    ⟨[⟨uA, "m@example.com", false, true⟩], [⟨uB, none, "Москва", 1⟩],
     [⟨uC, some uA, uB, true, 2⟩], [⟨uD, none, uC, "одежда", 3⟩], 4⟩
    (by simp [wStore3]) (by rfl)

/-- C9 (confirmed): with the empty author string — the subject id that
dummy-login tokens carry — `CreatePvz` runs no author-existence check
and no moderator check: whatever the clients table contains, any valid
city yields a created pickup point. -/
theorem C9_create_pvz_empty_author (st : Store) (newId : String) (params : PvzParams)
    (hid : params.pvzId = none)
    (hcity : validCity params.city = true)
    (hfresh : st.pvzs.any (fun z => z.id = newId) = false) :
    CreatePvz st newId "" params =
      .ok (⟨newId, params.registrationDate.getD st.clock, params.city⟩,
        { st with
            pvzs := st.pvzs ++
              [⟨newId, none, params.city, params.registrationDate.getD st.clock⟩],
            clock := st.clock + 1 }) := by
  unfold CreatePvz createPvzGate
  rw [hid]
  simp [hcity, hfresh]

/-- Witness for C9: a store with an employee-only client still gets a
PVZ created for the empty author. -/
theorem C9_create_pvz_empty_author_witness :
    CreatePvz cexStoreEmployee uE "" ⟨none, none, "Москва"⟩ =
      .ok (⟨uE, 1, "Москва"⟩,
        ⟨[⟨uA, "emp@example.com", false, true⟩], [⟨uE, none, "Москва", 1⟩], [], [], 2⟩) := by
  have h := C9_create_pvz_empty_author cexStoreEmployee uE ⟨none, none, "Москва"⟩
    (by rfl) (by rfl) (by rfl)
  exact h.trans (by rfl)

end Pvz

namespace Pvz

/-- One row of the flat product⋈reception⋈pvz join issued by
`GetPvzInfo`, columns in SELECT order: product id, type, timestamp,
reception id, reception timestamp, reception activity, pvz id, pvz
timestamp, city.  In every state the operations produce the two LEFT
JOINs always match (each product references an existing reception,
each reception an existing pvz), so the join is embedded as an inner
join. -/
structure JoinRow where
  productId : String
  productType : String
  productDate : Nat
  receptionId : String
  receptionDate : Nat
  receptionActivity : Bool
  pvzId : String
  pvzDate : Nat
  city : String
deriving DecidableEq, Repr

/-- The WHERE-filtered join rowset, one row per product whose
`registration_date` lies within `[startD, endD]` inclusive, in products
table order (the ORDER BY is applied separately by `sortRows`). -/
def joinRows (st : Store) (startD endD : Nat) : List JoinRow :=
  st.products.filterMap fun pr =>
    if startD ≤ pr.registrationDate ∧ pr.registrationDate ≤ endD then
      (st.receptions.find? fun r => r.id = pr.receptionId).bind fun rc =>
        (st.pvzs.find? fun z => z.id = rc.pvzId).map fun z =>
          ⟨pr.id, pr.productType, pr.registrationDate, pr.receptionId,
           rc.registrationDate, rc.activity, rc.pvzId, z.registrationDate, z.city⟩
    else none

/-- Strict "comes before" order of
`ORDER BY pvz_datetime DESC, receptions_datetime DESC, product_datetime DESC`. -/
def rowBefore (x y : JoinRow) : Bool :=
  y.pvzDate < x.pvzDate ||
    (x.pvzDate = y.pvzDate && (y.receptionDate < x.receptionDate ||
      (x.receptionDate = y.receptionDate && y.productDate < x.productDate)))

/-- Insert into a sorted list: `x` goes in front of the first element
that is not strictly before it (stable for ties). -/
def insertRow (x : JoinRow) : List JoinRow → List JoinRow
  | [] => [x]
  | y :: ys => if rowBefore y x then y :: insertRow x ys else x :: y :: ys

/-- The ORDER BY embedded as a stable insertion sort (postgres leaves
the relative order of tied rows unspecified; the stable choice keeps
table order). -/
def sortRows (l : List JoinRow) : List JoinRow := l.foldr insertRow []

/-- `storage.ReceptionInfo` as built by the grouping loop of
GetPvzInfo. -/
structure ROut where
  receptionId : String
  dateTime : Nat
  pvzId : String
  status : Status
  products : List ProductOut
deriving DecidableEq, Repr

/-- `storage.PvzInfo` as built by the grouping loop of GetPvzInfo. -/
structure POut where
  pvzId : String
  registrationDate : Nat
  city : String
  receptions : List ROut
deriving DecidableEq, Repr

/-- The `storage.Product` a join row contributes
(`vals[0], vals[2], vals[1]` and the reception id). -/
def toProdOut (w : JoinRow) : ProductOut :=
  ⟨w.productId, w.productDate, w.productType, w.receptionId⟩

/-- Modify the last element of a list (`res[len(res)-1] = ...`); on the
empty list the Go code would panic indexing `res[-1]`, the embedding
leaves the list unchanged (the theorems only use states where the list
is nonempty). -/
def appendToLast {α : Type} (f : α → α) : List α → List α
  | [] => []
  | [x] => [f x]
  | x :: y :: ys => x :: appendToLast f (y :: ys)

/-- `res[last].Receptions[last].Products = append(..., Product{...})`:
the product a row contributes, tagged with the tracked `rec` id. -/
def addProd (rc1 : String) (row : JoinRow) (rr : ROut) : ROut :=
  { rr with products := rr.products ++
      [⟨row.productId, row.productDate, row.productType, rc1⟩] }

/-- `res[last].Receptions = append(..., ReceptionInfo{...})`: the fresh
reception group a row opens, tagged with the tracked `pvz` id. -/
def addRec (p1 : String) (row : JoinRow) (z : POut) : POut :=
  { z with receptions := z.receptions ++
      [⟨row.receptionId, row.receptionDate, p1, statusOfBool row.receptionActivity, []⟩] }

/-- Apply `addProd` to the last reception group of a PVZ group. -/
def addProdToLast (rc1 : String) (row : JoinRow) (z : POut) : POut :=
  { z with receptions := appendToLast (addProd rc1 row) z.receptions }

/-- One iteration of the grouping loop of `GetPvzInfo` over a join row:
new PVZ group when the pvz id differs from the tracked `pvz` variable,
new reception group when the reception id differs from the tracked
`rec` variable, then append the product to the last reception of the
last PVZ. -/
def groupStep (acc : String × String × List POut) (row : JoinRow) :
    String × String × List POut :=
  let p0 := acc.1
  let rc0 := acc.2.1
  let res0 := acc.2.2
  let p1 := if row.pvzId ≠ p0 then row.pvzId else p0
  let res1 := if row.pvzId ≠ p0 then
      res0 ++ [⟨row.pvzId, row.pvzDate, row.city, []⟩]
    else res0
  let rc1 := if row.receptionId ≠ rc0 then row.receptionId else rc0
  let res2 := if row.receptionId ≠ rc0 then appendToLast (addRec p1 row) res1 else res1
  let res3 := appendToLast (addProdToLast rc1 row) res2
  (p1, rc1, res3)

/-- The grouping loop: fold the (sorted, windowed) join rows starting
from empty tracked ids and an empty result. -/
def groupFold (rows : List JoinRow) : List POut :=
  (rows.foldl groupStep ("", "", [])).2.2

/-- Embedding of `pg_storage.GetPvzInfo`: reject non-positive
pagination, then filter / sort / OFFSET `limit*(page-1)` / LIMIT
`limit` the flat join rowset and run the grouping loop. -/
def GetPvzInfo (st : Store) (startD endD : Nat) (page limit : Int) :
    Except Err (List POut) :=
  if page ≤ 0 || limit ≤ 0 then .error .invalidArguments
  else .ok (groupFold (((sortRows (joinRows st startD endD)).drop
    ((limit * (page - 1)).toNat)).take limit.toNat))

/-- Maximal runs of adjacent elements sharing a key — the spec's "start
a new group whenever the identifier changes from the previous row". -/
def chunkRuns {α : Type} (key : α → String) : List α → List (List α)
  | [] => []
  | x :: xs =>
    match chunkRuns key xs with
    | [] => [[x]]
    | [] :: rest => [x] :: rest
    | (y :: ys) :: rest =>
      if key x = key y then (x :: y :: ys) :: rest else [x] :: (y :: ys) :: rest

/-- The reception built from a run of join rows (header data from the
run's first row). -/
def mkROut (q : JoinRow) (prods : List ProductOut) : ROut :=
  ⟨q.receptionId, q.receptionDate, q.pvzId, statusOfBool q.receptionActivity, prods⟩

/-- Modelled from the spec: inside one PVZ group, start a new reception
group whenever the reception identifier changes from the previous row
and append each row's product to the current reception group. -/
def specRecs (rows : List JoinRow) : List ROut :=
  (chunkRuns (fun q => q.receptionId) rows).map fun rchunk =>
    match rchunk with
    | [] => ⟨"", 0, "", .inactive, []⟩
    | q :: _ => mkROut q (rchunk.map toProdOut)

/-- The PVZ group built from a run of join rows. -/
def mkPOut (r : JoinRow) (recs : List ROut) : POut :=
  ⟨r.pvzId, r.pvzDate, r.city, recs⟩

/-- Modelled from the spec: group the ordered, windowed join rows into
the nested PVZ→reception→product tree — a new PVZ group whenever the
PVZ identifier changes from the previous row, receptions nested via
`specRecs`. -/
def specGroup (rows : List JoinRow) : List POut :=
  (chunkRuns (fun r => r.pvzId) rows).map fun chunk =>
    match chunk with
    | [] => ⟨"", 0, "", []⟩
    | r :: _ => mkPOut r (specRecs chunk)

end Pvz

namespace Pvz

theorem appendToLast_comp {α : Type} (f g : α → α) (l : List α) :
    appendToLast f (appendToLast g l) = appendToLast (fun a => f (g a)) l := by
  induction l with
  | nil => rfl
  | cons z zs ih =>
    cases zs with
    | nil => rfl
    | cons z2 zs2 =>
      obtain ⟨w, ws, hw⟩ : ∃ w ws, appendToLast g (z2 :: zs2) = w :: ws := by
        cases zs2 with
        | nil => exact ⟨g z2, [], rfl⟩
        | cons a b => exact ⟨z2, _, rfl⟩
      calc appendToLast f (appendToLast g (z :: z2 :: zs2))
          = appendToLast f (z :: appendToLast g (z2 :: zs2)) := rfl
        _ = appendToLast f (z :: w :: ws) := by rw [hw]
        _ = z :: appendToLast f (w :: ws) := rfl
        _ = z :: appendToLast f (appendToLast g (z2 :: zs2)) := by rw [hw]
        _ = z :: appendToLast (fun a => f (g a)) (z2 :: zs2) := by rw [ih]
        _ = appendToLast (fun a => f (g a)) (z :: z2 :: zs2) := rfl

theorem appendToLast_concat {α : Type} (f : α → α) (l : List α) (x : α) :
    appendToLast f (l ++ [x]) = l ++ [f x] := by
  induction l with
  | nil => rfl
  | cons z zs ih =>
    cases zs with
    | nil => rfl
    | cons z2 zs2 => simpa [appendToLast] using ih

/-- Step lemma: the row continues the current PVZ group and the current
reception group. -/
theorem groupStep_same_same {p rc : String} {res : List POut} {row : JoinRow}
    (hp : row.pvzId = p) (hr : row.receptionId = rc) :
    groupStep (p, rc, res) row = (p, rc, appendToLast (addProdToLast rc row) res) := by
  unfold groupStep
  simp [hp, hr]

/-- Step lemma: same PVZ group, new reception group. -/
theorem groupStep_same_new {p rc : String} {res : List POut} {row : JoinRow}
    (hp : row.pvzId = p) (hr : row.receptionId ≠ rc) :
    groupStep (p, rc, res) row =
      (p, row.receptionId,
       appendToLast (fun z => addProdToLast row.receptionId row (addRec p row z)) res) := by
  unfold groupStep
  simp only [hp]
  simp [hr, appendToLast_comp]

/-- Step lemma: new PVZ group (and necessarily a new reception group). -/
theorem groupStep_new {p rc : String} {res : List POut} {row : JoinRow}
    (hp : row.pvzId ≠ p) (hr : row.receptionId ≠ rc) :
    groupStep (p, rc, res) row =
      (row.pvzId, row.receptionId, res ++ [mkPOut row [mkROut row [toProdOut row]]]) := by
  unfold groupStep
  simp only [hp, hr, ne_eq, not_false_eq_true, if_true, ite_true]
  rw [appendToLast_concat, appendToLast_concat]
  simp [addRec, addProdToLast, addProd, appendToLast, mkPOut, mkROut, toProdOut]

end Pvz

namespace Pvz

/-- The reception groups the fold produces while it stays inside one
PVZ group: rows continuing the current reception extend its product
list, a changed reception id opens a fresh group. -/
def contRecs (cur : ROut) : List JoinRow → List ROut
  | [] => [cur]
  | w :: ws =>
    if w.receptionId = cur.receptionId then
      contRecs { cur with products := cur.products ++ [toProdOut w] } ws
    else
      cur :: contRecs (mkROut w [toProdOut w]) ws

theorem chunkRuns_cons {α : Type} (key : α → String) (x : α) (xs : List α) :
    chunkRuns key (x :: xs) =
      (x :: xs.takeWhile fun z => key z = key x) ::
        chunkRuns key (xs.dropWhile fun z => key z = key x) := by
  induction xs generalizing x with
  | nil => rfl
  | cons y ys ih =>
    by_cases h : key x = key y
    · rw [chunkRuns, ih y]
      simp only [List.takeWhile_cons, List.dropWhile_cons, h]
      simp
    · have h2 : ¬ key y = key x := fun hyx => h hyx.symm
      rw [chunkRuns, ih y]
      simp only [List.takeWhile_cons, List.dropWhile_cons]
      simp only [h, h2, decide_eq_true_eq, if_false, ite_false, decide_eq_false_iff_not]
      simp [h, h2]
      exact (ih y).symm

theorem dropWhile_head_false {α : Type} {p : α → Bool} {l : List α} {y : α} {ys : List α}
    (h : l.dropWhile p = y :: ys) : p y = false := by
  induction l with
  | nil => simp at h
  | cons z zs ih =>
    rw [List.dropWhile_cons] at h
    split at h
    · exact ih h
    · injection h with h1 h2
      subst h1
      simp_all

theorem length_dropWhile_le {α : Type} (p : α → Bool) (l : List α) :
    (l.dropWhile p).length ≤ l.length := by
  induction l with
  | nil => simp
  | cons z zs ih =>
    rw [List.dropWhile_cons]
    split
    · exact Nat.le_trans ih (Nat.le_succ _)
    · simp

theorem contRecs_eq_chunks (rows : List JoinRow) : ∀ (cur : ROut),
    contRecs cur rows =
      { cur with products := cur.products ++
          ((rows.takeWhile fun w => w.receptionId = cur.receptionId).map toProdOut) } ::
        specRecs (rows.dropWhile fun w => w.receptionId = cur.receptionId) := by
  induction rows with
  | nil =>
    intro cur
    simp [contRecs, specRecs, chunkRuns]
  | cons w ws ih =>
    intro cur
    rw [contRecs]
    by_cases h : w.receptionId = cur.receptionId
    · rw [if_pos h, ih]
      simp only [List.takeWhile_cons, List.dropWhile_cons, h]
      simp
    · rw [if_neg h, ih]
      simp only [List.takeWhile_cons, List.dropWhile_cons, mkROut]
      have h2 : (decide (w.receptionId = cur.receptionId)) = false := by simp [h]
      rw [h2]
      simp only [Bool.false_eq_true, if_false]
      unfold specRecs
      rw [chunkRuns_cons]
      simp [mkROut]

/-- The spec's reception grouping of one PVZ chunk agrees with the
fold-side `contRecs` started on the chunk's first row. -/
theorem specRecs_eq_contRecs (x : JoinRow) (run : List JoinRow) :
    specRecs (x :: run) = contRecs (mkROut x [toProdOut x]) run := by
  rw [contRecs_eq_chunks]
  unfold specRecs
  rw [chunkRuns_cons]
  simp [mkROut]

theorem specGroup_cons (x : JoinRow) (xs : List JoinRow) :
    specGroup (x :: xs) =
      mkPOut x (specRecs (x :: xs.takeWhile fun z => z.pvzId = x.pvzId)) ::
        specGroup (xs.dropWhile fun z => z.pvzId = x.pvzId) := by
  unfold specGroup
  rw [chunkRuns_cons]
  simp

end Pvz

namespace Pvz

theorem appendToLast_concat2 {α : Type} (f : α → α) (l : List α) (a b : α) :
    appendToLast f (l ++ [a, b]) = l ++ [a, f b] := by
  have h := appendToLast_concat f (l ++ [a]) b
  simpa [List.append_assoc] using h

/-- Folding the grouping step over rows that all belong to the current
PVZ group extends exactly the last result entry, producing the
`contRecs` reception groups; the tracked `rec` id ends on the last
reception id seen. -/
theorem foldl_within (rows : List JoinRow) : ∀ (k rc : String) (d : Nat) (c : String)
    (res0 : List POut) (rs0 : List ROut) (cur : ROut),
    (∀ w ∈ rows, w.pvzId = k) → cur.receptionId = rc →
    ∃ rc', rows.foldl groupStep (k, rc, res0 ++ [⟨k, d, c, rs0 ++ [cur]⟩]) =
        (k, rc', res0 ++ [⟨k, d, c, rs0 ++ contRecs cur rows⟩]) ∧
      (rc' = rc ∨ ∃ w ∈ rows, rc' = w.receptionId) := by
  induction rows with
  | nil =>
    intro k rc d c res0 rs0 cur hall hrc
    exact ⟨rc, by simp [contRecs], Or.inl rfl⟩
  | cons w ws ih =>
    intro k rc d c res0 rs0 cur hall hrc
    by_cases h : w.receptionId = rc
    · rw [List.foldl_cons, groupStep_same_same (hall w (List.mem_cons_self w ws)) h]
      rw [appendToLast_concat]
      have hstep : addProdToLast rc w ⟨k, d, c, rs0 ++ [cur]⟩ =
          ⟨k, d, c, rs0 ++ [{ cur with products := cur.products ++ [toProdOut w] }]⟩ := by
        unfold addProdToLast addProd
        rw [appendToLast_concat]
        simp [toProdOut, h]
      rw [hstep]
      obtain ⟨rc', heq, hprov⟩ := ih k rc d c res0 rs0
        { cur with products := cur.products ++ [toProdOut w] }
        (fun z hz => hall z (List.mem_cons_of_mem w hz)) (by simpa using hrc)
      refine ⟨rc', ?_, ?_⟩
      · rw [heq, contRecs, if_pos (h.trans hrc.symm)]
      · rcases hprov with h1 | ⟨w2, hw2, h2⟩
        · exact Or.inl h1
        · exact Or.inr ⟨w2, List.mem_cons_of_mem w hw2, h2⟩
    · rw [List.foldl_cons, groupStep_same_new (hall w (List.mem_cons_self w ws)) h]
      rw [appendToLast_concat]
      have hkp : w.pvzId = k := hall w (List.mem_cons_self w ws)
      have hstep : addProdToLast w.receptionId w (addRec k w ⟨k, d, c, rs0 ++ [cur]⟩) =
          ⟨k, d, c, (rs0 ++ [cur]) ++ [mkROut w [toProdOut w]]⟩ := by
        unfold addRec addProdToLast addProd
        simp [appendToLast_concat2, mkROut, toProdOut, hkp]
      rw [hstep]
      obtain ⟨rc', heq, hprov⟩ := ih k w.receptionId d c res0 (rs0 ++ [cur])
        (mkROut w [toProdOut w]) (fun z hz => hall z (List.mem_cons_of_mem w hz)) rfl
      refine ⟨rc', ?_, ?_⟩
      · rw [heq, contRecs, if_neg (fun hcon => h (hcon.trans hrc))]
        simp [List.append_assoc]
      · rcases hprov with h1 | ⟨w2, hw2, h2⟩
        · exact Or.inr ⟨w, List.mem_cons_self w ws, h1⟩
        · exact Or.inr ⟨w2, List.mem_cons_of_mem w hw2, h2⟩

end Pvz

namespace Pvz

/-- Folding the grouping loop from a state whose tracked ids differ
from the first row's ids appends exactly the spec-side groups of the
rows (requires the rows to be reception-coherent: equal reception ids
imply equal pvz ids, which unique reception primary keys guarantee). -/
theorem foldl_fresh : ∀ (n : Nat) (rows : List JoinRow) (p rc : String) (res : List POut),
    rows.length ≤ n →
    (∀ w1 ∈ rows, ∀ w2 ∈ rows, w1.receptionId = w2.receptionId → w1.pvzId = w2.pvzId) →
    (∀ x ∈ rows.head?, x.pvzId ≠ p ∧ x.receptionId ≠ rc) →
    ∃ p' rc', rows.foldl groupStep (p, rc, res) = (p', rc', res ++ specGroup rows) := by
  intro n
  induction n with
  | zero =>
    intro rows p rc res hlen hco hhead
    have hnil : rows = [] := List.eq_nil_of_length_eq_zero (Nat.le_zero.mp hlen)
    subst hnil
    exact ⟨p, rc, by simp [specGroup, chunkRuns]⟩
  | succ n ih =>
    intro rows p rc res hlen hco hhead
    cases rows with
    | nil => exact ⟨p, rc, by simp [specGroup, chunkRuns]⟩
    | cons x xs =>
      obtain ⟨hxp, hxrc⟩ := hhead x (by simp)
      rw [List.foldl_cons, groupStep_new hxp hxrc]
      simp only [mkPOut]
      obtain ⟨rc', heq, hprov⟩ := foldl_within (xs.takeWhile fun z => z.pvzId = x.pvzId)
        x.pvzId x.receptionId x.pvzDate x.city res [] (mkROut x [toProdOut x])
        (fun w hw => by simpa using List.mem_takeWhile_imp hw) rfl
      simp only [List.nil_append] at heq
      have hsubRest : ∀ y ∈ xs.dropWhile (fun z => z.pvzId = x.pvzId), y ∈ x :: xs := by
        intro y hy
        refine List.mem_cons_of_mem x ?_
        rw [← List.takeWhile_append_dropWhile (fun z : JoinRow => z.pvzId = x.pvzId) xs]
        exact List.mem_append.mpr (Or.inr hy)
      have hsubRun : ∀ y ∈ xs.takeWhile (fun z => z.pvzId = x.pvzId), y ∈ x :: xs := by
        intro y hy
        refine List.mem_cons_of_mem x ?_
        rw [← List.takeWhile_append_dropWhile (fun z : JoinRow => z.pvzId = x.pvzId) xs]
        exact List.mem_append.mpr (Or.inl hy)
      have hheadRest : ∀ z ∈ (xs.dropWhile (fun w => w.pvzId = x.pvzId)).head?,
          z.pvzId ≠ x.pvzId ∧ z.receptionId ≠ rc' := by
        intro z hz
        rcases hr : xs.dropWhile (fun w => w.pvzId = x.pvzId) with _ | ⟨y, t⟩
        · rw [hr] at hz
          simp at hz
        · rw [hr] at hz
          simp only [List.head?_cons, Option.mem_def, Option.some.injEq] at hz
          subst hz
          have hy1 : ¬ y.pvzId = x.pvzId := by
            have := dropWhile_head_false hr
            simpa using this
          have hymem : y ∈ x :: xs := hsubRest y (by rw [hr]; exact List.mem_cons_self y t)
          refine ⟨hy1, ?_⟩
          intro hyrc
          rcases hprov with h1 | ⟨w2, hw2, h2⟩
          · have := hco y hymem x (List.mem_cons_self x xs) (by rw [hyrc, h1])
            exact hy1 this
          · have hw2mem : w2 ∈ x :: xs := hsubRun w2 hw2
            have hw2p : w2.pvzId = x.pvzId := by
              simpa using List.mem_takeWhile_imp hw2
            have := hco y hymem w2 hw2mem (by rw [hyrc, h2])
            rw [hw2p] at this
            exact hy1 this
      have hlenRest : (xs.dropWhile (fun z => z.pvzId = x.pvzId)).length ≤ n := by
        have h1 := length_dropWhile_le (fun z : JoinRow => z.pvzId = x.pvzId) xs
        have h2 : xs.length ≤ n := by simpa using Nat.succ_le_succ_iff.mp hlen
        exact Nat.le_trans h1 h2
      have hcoRest : ∀ w1 ∈ xs.dropWhile (fun z => z.pvzId = x.pvzId),
          ∀ w2 ∈ xs.dropWhile (fun z => z.pvzId = x.pvzId),
          w1.receptionId = w2.receptionId → w1.pvzId = w2.pvzId := by
        intro w1 h1 w2 h2 hr
        exact hco w1 (hsubRest w1 h1) w2 (hsubRest w2 h2) hr
      obtain ⟨p', rc2, heq2⟩ := ih (xs.dropWhile (fun z => z.pvzId = x.pvzId))
        x.pvzId rc'
        (res ++ [⟨x.pvzId, x.pvzDate, x.city,
          contRecs (mkROut x [toProdOut x]) (xs.takeWhile fun z => z.pvzId = x.pvzId)⟩])
        hlenRest hcoRest hheadRest
      refine ⟨p', rc2, ?_⟩
      conv_lhs => rw [← List.takeWhile_append_dropWhile (fun z : JoinRow => z.pvzId = x.pvzId) xs]
      rw [List.foldl_append, heq, heq2]
      rw [specGroup_cons, specRecs_eq_contRecs]
      simp [mkPOut, List.append_assoc]

end Pvz

namespace Pvz

/-- The Go grouping loop agrees with the spec-side chunk grouping on
any row list whose first row has nonempty ids (they differ from the
loop's initial tracked `""` ids) and whose rows are
reception-coherent. -/
theorem groupFold_eq_specGroup (rows : List JoinRow)
    (hco : ∀ w1 ∈ rows, ∀ w2 ∈ rows, w1.receptionId = w2.receptionId → w1.pvzId = w2.pvzId)
    (hids : ∀ x ∈ rows.head?, x.pvzId ≠ "" ∧ x.receptionId ≠ "") :
    groupFold rows = specGroup rows := by
  obtain ⟨p', rc', heq⟩ := foldl_fresh rows.length rows "" "" [] (Nat.le_refl _) hco hids
  unfold groupFold
  rw [heq]
  simp

theorem mem_insertRow {x y : JoinRow} {l : List JoinRow} :
    y ∈ insertRow x l ↔ y = x ∨ y ∈ l := by
  induction l with
  | nil => simp [insertRow]
  | cons z zs ih =>
    rw [insertRow]
    split
    · simp only [List.mem_cons, ih]
      tauto
    · simp only [List.mem_cons]

theorem mem_sortRows {l : List JoinRow} {y : JoinRow} : y ∈ sortRows l ↔ y ∈ l := by
  unfold sortRows
  induction l with
  | nil => simp
  | cons x xs ih =>
    rw [List.foldr_cons, mem_insertRow, ih]
    simp

/-- The id well-formedness GetPvzInfo needs: pvz and reception primary
keys are nonempty strings (they are uuids in every real state). -/
def IdsOk (st : Store) : Prop :=
  (∀ z ∈ st.pvzs, z.id ≠ "") ∧ (∀ r ∈ st.receptions, r.id ≠ "")

instance (st : Store) : Decidable (IdsOk st) := by
  unfold IdsOk
  infer_instance

theorem joinRows_mem {st : Store} {s e : Nat} {w : JoinRow} (h : w ∈ joinRows st s e) :
    ∃ pr ∈ st.products, ∃ rc, st.receptions.find? (fun r => r.id = pr.receptionId) = some rc ∧
      ∃ z, st.pvzs.find? (fun q => q.id = rc.pvzId) = some z ∧
        w.receptionId = pr.receptionId ∧ w.pvzId = rc.pvzId := by
  unfold joinRows at h
  rw [List.mem_filterMap] at h
  obtain ⟨pr, hpr, hf⟩ := h
  split at hf
  · rw [Option.bind_eq_some] at hf
    obtain ⟨rc, hrc, hmap⟩ := hf
    rw [Option.map_eq_some'] at hmap
    obtain ⟨z, hz, hwz⟩ := hmap
    exact ⟨pr, hpr, rc, hrc, z, hz, by rw [← hwz], by rw [← hwz]⟩
  · simp at hf

theorem joinRows_ids {st : Store} {s e : Nat} (hids : IdsOk st) :
    ∀ w ∈ joinRows st s e, w.pvzId ≠ "" ∧ w.receptionId ≠ "" := by
  intro w hw
  obtain ⟨pr, hpr, rc, hrc, z, hz, hwrec, hwpvz⟩ := joinRows_mem hw
  constructor
  · rw [hwpvz]
    have hzid : z.id = rc.pvzId := by simpa using List.find?_some hz
    rw [← hzid]
    exact hids.1 z (List.mem_of_find?_eq_some hz)
  · rw [hwrec]
    have hrid : rc.id = pr.receptionId := by simpa using List.find?_some hrc
    rw [← hrid]
    exact hids.2 rc (List.mem_of_find?_eq_some hrc)

theorem joinRows_coherent {st : Store} {s e : Nat} :
    ∀ w1 ∈ joinRows st s e, ∀ w2 ∈ joinRows st s e,
      w1.receptionId = w2.receptionId → w1.pvzId = w2.pvzId := by
  intro w1 h1 w2 h2 hr
  obtain ⟨pr1, -, rc1, hrc1, z1, -, hwrec1, hwpvz1⟩ := joinRows_mem h1
  obtain ⟨pr2, -, rc2, hrc2, z2, -, hwrec2, hwpvz2⟩ := joinRows_mem h2
  have hpr : pr1.receptionId = pr2.receptionId := by rw [← hwrec1, ← hwrec2, hr]
  simp only [hpr] at hrc1
  have hrc12 : rc1 = rc2 := Option.some.inj (hrc1.symm.trans hrc2)
  rw [hwpvz1, hwpvz2, hrc12]

theorem mem_window {l : List JoinRow} {a b : Nat} {y : JoinRow}
    (h : y ∈ (l.drop a).take b) : y ∈ l :=
  List.drop_subset a l (List.take_subset b _ h)

end Pvz

namespace Pvz

theorem chunkRuns_chunks_ne_nil {α : Type} (key : α → String) :
    ∀ (n : Nat) (l : List α), l.length ≤ n → ∀ c ∈ chunkRuns key l, c ≠ [] := by
  intro n
  induction n with
  | zero =>
    intro l hl c hc
    have hnil : l = [] := List.eq_nil_of_length_eq_zero (Nat.le_zero.mp hl)
    subst hnil
    simp [chunkRuns] at hc
  | succ n ih =>
    intro l hl c hc
    cases l with
    | nil => simp [chunkRuns] at hc
    | cons x xs =>
      rw [chunkRuns_cons] at hc
      rcases List.mem_cons.mp hc with h | h
      · rw [h]
        simp
      · exact ih (xs.dropWhile fun z => key z = key x)
          (Nat.le_trans (length_dropWhile_le _ _) (Nat.succ_le_succ_iff.mp hl)) c h

/-- Every PVZ entry the spec-side grouping produces has at least one
reception group, and every reception group at least one product. -/
theorem specGroup_nonempty (rows : List JoinRow) :
    ∀ pv ∈ specGroup rows, pv.receptions ≠ [] ∧ ∀ rc ∈ pv.receptions, rc.products ≠ [] := by
  intro pv hpv
  unfold specGroup at hpv
  rw [List.mem_map] at hpv
  obtain ⟨chunk, hchunk, hpveq⟩ := hpv
  have hcne : chunk ≠ [] :=
    chunkRuns_chunks_ne_nil _ rows.length rows (Nat.le_refl _) chunk hchunk
  rcases chunk with _ | ⟨r, ctail⟩
  · exact absurd rfl hcne
  · rw [← hpveq]
    constructor
    · show (mkPOut r (specRecs (r :: ctail))).receptions ≠ []
      simp only [mkPOut]
      unfold specRecs
      rw [chunkRuns_cons]
      simp
    · intro rc hrc
      simp only [mkPOut] at hrc
      unfold specRecs at hrc
      rw [List.mem_map] at hrc
      obtain ⟨rchunk, hrchunk, hrceq⟩ := hrc
      have hrne : rchunk ≠ [] :=
        chunkRuns_chunks_ne_nil _ (r :: ctail).length _ (Nat.le_refl _) rchunk hrchunk
      rcases rchunk with _ | ⟨q, qt⟩
      · exact absurd rfl hrne
      · rw [← hrceq]
        simp [mkROut]

end Pvz

namespace Pvz

/-- C5 (confirmed).  For positive page and limit, `GetPvzInfo` returns
exactly: filter product rows to `[startD, endD]` inclusive
(`joinRows`), sort descending by pvz date, then reception date, then
product date (`sortRows`), take the window OFFSET `limit*(page-1)`
LIMIT `limit` of that flat rowset, and group the window rows in one
linear pass into the nested tree, starting a new PVZ group whenever the
PVZ id changes from the previous row and a new reception group whenever
the reception id changes (`specGroup`, the spec-side reading of the
grouping).  Id well-formedness (`IdsOk`) stands in for the uuid primary
keys of real states. -/
theorem C5_list_pickup_points (st : Store) (startD endD : Nat) (page limit : Int)
    (hp : 1 ≤ page) (hl : 1 ≤ limit) (hids : IdsOk st) :
    GetPvzInfo st startD endD page limit =
      .ok (specGroup (((sortRows (joinRows st startD endD)).drop
        ((limit * (page - 1)).toNat)).take limit.toNat)) := by
  unfold GetPvzInfo
  have hpg : ¬ (page ≤ 0 || limit ≤ 0) = true := by
    simp only [Bool.or_eq_true, decide_eq_true_eq]
    push_neg
    omega
  rw [if_neg hpg]
  congr 1
  apply groupFold_eq_specGroup
  · intro w1 h1 w2 h2 hr
    exact joinRows_coherent w1 (mem_sortRows.mp (mem_window h1))
      w2 (mem_sortRows.mp (mem_window h2)) hr
  · intro x hx
    exact joinRows_ids hids x
      (mem_sortRows.mp (mem_window (List.mem_of_mem_head? hx)))

/-- Witness for C5: the pipeline equation instantiated on the concrete
state `wStore5`, first page of size 10. -/
theorem C5_list_pickup_points_witness :
    GetPvzInfo wStore5 0 100 1 10 =
      .ok (specGroup (((sortRows (joinRows wStore5 0 100)).drop
        (((10 : Int) * ((1 : Int) - 1)).toNat)).take (10 : Int).toNat)) :=
  C5_list_pickup_points wStore5 0 100 1 10 (by decide) (by decide) (by decide)

/-- C10 (confirmed).  Every PVZ entry of a successful `GetPvzInfo`
result contains at least one reception, and every listed reception at
least one product: the result is built row-by-row from the window's
product rows, so nothing without an in-window product ever appears. -/
theorem C10_groups_nonempty (st : Store) (s e : Nat) (page limit : Int)
    (out : List POut) (hids : IdsOk st)
    (h : GetPvzInfo st s e page limit = .ok out) :
    ∀ pv ∈ out, pv.receptions ≠ [] ∧ ∀ rc ∈ pv.receptions, rc.products ≠ [] := by
  unfold GetPvzInfo at h
  split at h
  · simp at h
  · have hout := Except.ok.inj h
    rw [← hout]
    rw [groupFold_eq_specGroup]
    · exact specGroup_nonempty _
    · intro w1 h1 w2 h2 hr
      exact joinRows_coherent w1 (mem_sortRows.mp (mem_window h1))
        w2 (mem_sortRows.mp (mem_window h2)) hr
    · intro x hx
      exact joinRows_ids hids x
        (mem_sortRows.mp (mem_window (List.mem_of_mem_head? hx)))

/-- The single PVZ entry `GetPvzInfo wStore5 0 100 1 10` returns. -/
def wPvOut : POut :=
  ⟨uB, 1, "Москва",
   [⟨uC, 2, uB, .active, [⟨uE, 4, "обувь", uC⟩, ⟨uD, 3, "одежда", uC⟩]⟩]⟩

/-- Witness for C10: instantiated on the concrete result for
`wStore5`, its PVZ entry has a reception and that reception has
products. -/
theorem C10_groups_nonempty_witness :
    wPvOut.receptions ≠ [] ∧
    (⟨uC, 2, uB, .active, [⟨uE, 4, "обувь", uC⟩, ⟨uD, 3, "одежда", uC⟩]⟩ : ROut).products ≠ [] :=
  have hmain := C10_groups_nonempty wStore5 0 100 1 10 [wPvOut] (by decide) (by rfl)
  ⟨(hmain wPvOut (by simp)).1,
   (hmain wPvOut (by simp)).2 ⟨uC, 2, uB, .active, [⟨uE, 4, "обувь", uC⟩, ⟨uD, 3, "одежда", uC⟩]⟩
     (by simp [wPvOut])⟩

end Pvz
